import Mathlib

/-!
Verification of the bitset crate — a fixed-capacity, 128-bit set of boolean
flags — against its specification.  The Rust `u128` field is embedded as a
natural number; every state the program can construct satisfies
`data < 2 ^ 128`, and theorems quantifying over arbitrary bit sets carry
that bound as a hypothesis where the claim's domain requires it.
-/

namespace Bitset

/-- Embeds the Rust struct `BitSet` (src/src/lib.rs:46-50): a single field
`data: u128`, with equality of bit sets given by equality of the field. -/
structure BitSet where
  data : Nat
deriving DecidableEq

/-- Embeds `BitSet::new` (lib.rs:69-73): all 128 bits false. -/
def BitSet.new : BitSet := ⟨0⟩

/-- Embeds `BitSet::from_u64` (lib.rs:94-98).  The argument is a 64-bit
value (a natural number below `2 ^ 64`); the cast `value as u128` denotes
the same number. -/
def BitSet.from_u64 (value : Nat) : BitSet := ⟨value⟩

/-- Embeds `BitSet::from_u128` (lib.rs:119-123). -/
def BitSet.from_u128 (value : Nat) : BitSet := ⟨value⟩

/-- Embeds `BitSet::capacity` (lib.rs:173-175): the constant 128. -/
def BitSet.capacity (_ : BitSet) : Nat := 128

/-- Embeds `BitSet::test` (lib.rs:145-151): a total function that returns
`false`, with no error signal, for positions at or beyond the capacity. -/
def BitSet.test (b : BitSet) (position : Nat) : Bool :=
  if position < b.capacity then b.data &&& (1 <<< position) != 0 else false

/-- Embeds `BitSet::flip` (lib.rs:274-282).  The Rust method mutates the
receiver and returns `Option<()>`; the embedding pairs the returned option
with the receiver state after the call. -/
def BitSet.flip (b : BitSet) (position : Nat) : Option Unit × BitSet :=
  if position < b.capacity then (some (), ⟨b.data ^^^ (1 <<< position)⟩)
  else (none, b)

/-- Embeds `BitSet::set` (lib.rs:345-359), again pairing the returned option
with the state after the call.  Rust `!mask` on `u128` is the complement
within 128 bits, i.e. XOR with `2 ^ 128 - 1`. -/
def BitSet.set (b : BitSet) (position : Nat) (value : Bool) :
    Option Unit × BitSet :=
  if position < b.capacity then
    let mask : Nat := 1 <<< position
    if value then (some (), ⟨b.data ||| mask⟩)
    else (some (), ⟨b.data &&& ((2 ^ 128 - 1) ^^^ mask)⟩)
  else (none, b)

/-- Embeds `BitSet::get` (lib.rs:382-392). -/
def BitSet.get (b : BitSet) (position : Nat) : Option Bool :=
  if position < b.capacity then
    if b.data &&& (1 <<< position) != 0 then some true else some false
  else none

/-- Embeds `BitSet::to_u64` (lib.rs:415-421).  The cast `self.data as u64`
truncates to the low 64 bits, i.e. reduces modulo `2 ^ 64`. -/
def BitSet.to_u64 (b : BitSet) : Option Nat :=
  if b.data &&& (0xFFFFFFFFFFFFFFFF <<< 64) = 0 then some (b.data % 2 ^ 64)
  else none

/-- Embeds `BitSet::to_u128` (lib.rs:442-444): unconditionally `Some` of the
exact bit pattern. -/
def BitSet.to_u128 (b : BitSet) : Option Nat := some b.data

/-- Embeds `BitSet::as_string` (lib.rs:465-476).  The loop pushes one
character per bit index, from index 127 down to index 0; the resulting
string is embedded as its list of characters in push order. -/
def BitSet.as_string (b : BitSet) : List Char :=
  ((List.range b.capacity).reverse).map (fun i => if b.test i then '1' else '0')

/-- Embeds `impl ops::BitAnd<BitSet> for BitSet` (lib.rs:485-495): the body
builds `BitSet::new()` and overwrites its field with `self.data & other.data`,
which is the bit set holding exactly that value. -/
def BitSet.bitand (self other : BitSet) : BitSet := ⟨self.data &&& other.data⟩

/-- Embeds `impl ops::BitAnd<&BitSet> for BitSet` (lib.rs:497-507). -/
def BitSet.bitand_val_ref (self other : BitSet) : BitSet :=
  ⟨self.data &&& other.data⟩

/-- Embeds `impl ops::BitAnd<BitSet> for &BitSet` (lib.rs:509-519). -/
def BitSet.bitand_ref_val (self other : BitSet) : BitSet :=
  ⟨self.data &&& other.data⟩

/-- Embeds `impl ops::BitAnd<&BitSet> for &BitSet` (lib.rs:521-531). -/
def BitSet.bitand_ref_ref (self other : BitSet) : BitSet :=
  ⟨self.data &&& other.data⟩

/-- Embeds `impl ops::BitOr<BitSet> for BitSet` (lib.rs:533-543). -/
def BitSet.bitor (self other : BitSet) : BitSet := ⟨self.data ||| other.data⟩

/-- Embeds `impl ops::BitOr<&BitSet> for BitSet` (lib.rs:545-555). -/
def BitSet.bitor_val_ref (self other : BitSet) : BitSet :=
  ⟨self.data ||| other.data⟩

/-- Embeds `impl ops::BitOr<BitSet> for &BitSet` (lib.rs:557-567). -/
def BitSet.bitor_ref_val (self other : BitSet) : BitSet :=
  ⟨self.data ||| other.data⟩

/-- Embeds `impl ops::BitOr<&BitSet> for &BitSet` (lib.rs:569-579). -/
def BitSet.bitor_ref_ref (self other : BitSet) : BitSet :=
  ⟨self.data ||| other.data⟩

/-- Embeds `impl ops::BitXor<BitSet> for BitSet` (lib.rs:581-591). -/
def BitSet.bitxor (self other : BitSet) : BitSet := ⟨self.data ^^^ other.data⟩

/-- Embeds `impl ops::BitXor<&BitSet> for BitSet` (lib.rs:593-603). -/
def BitSet.bitxor_val_ref (self other : BitSet) : BitSet :=
  ⟨self.data ^^^ other.data⟩

/-- Embeds `impl ops::BitXor<BitSet> for &BitSet` (lib.rs:605-615). -/
def BitSet.bitxor_ref_val (self other : BitSet) : BitSet :=
  ⟨self.data ^^^ other.data⟩

/-- Embeds `impl ops::BitXor<&BitSet> for &BitSet` (lib.rs:617-627). -/
def BitSet.bitxor_ref_ref (self other : BitSet) : BitSet :=
  ⟨self.data ^^^ other.data⟩

/-- Embeds `impl ops::BitAndAssign<BitSet> for BitSet` (lib.rs:677-682): the
receiver state after `self.data &= other.data`. -/
def BitSet.bitand_assign (self other : BitSet) : BitSet :=
  ⟨self.data &&& other.data⟩

/-- Embeds `impl ops::BitAndAssign<&BitSet> for BitSet` (lib.rs:684-689). -/
def BitSet.bitand_assign_ref (self other : BitSet) : BitSet :=
  ⟨self.data &&& other.data⟩

/-- Embeds `impl ops::BitOrAssign<BitSet> for BitSet` (lib.rs:691-696). -/
def BitSet.bitor_assign (self other : BitSet) : BitSet :=
  ⟨self.data ||| other.data⟩

/-- Embeds `impl ops::BitOrAssign<&BitSet> for BitSet` (lib.rs:698-703). -/
def BitSet.bitor_assign_ref (self other : BitSet) : BitSet :=
  ⟨self.data ||| other.data⟩

/-- Embeds `impl ops::BitXorAssign<BitSet> for BitSet` (lib.rs:705-710). -/
def BitSet.bitxor_assign (self other : BitSet) : BitSet :=
  ⟨self.data ^^^ other.data⟩

/-- Embeds `impl ops::BitXorAssign<&BitSet> for BitSet` (lib.rs:712-717). -/
def BitSet.bitxor_assign_ref (self other : BitSet) : BitSet :=
  ⟨self.data ^^^ other.data⟩

/-- Embeds `impl ops::Shl<usize> for BitSet` (lib.rs:629-639), whose body is
`self.data << amount`.  On `u128`, Rust's `<<` with an amount of 128 or more
is an arithmetic overflow: it panics under checked arithmetic, and with
overflow checks disabled it shifts by the amount reduced modulo 128 — in
neither mode does it zero-fill.  The overflow is embedded as `none`; a valid
shift truncates its result to 128 bits. -/
def BitSet.shl (b : BitSet) (amount : Nat) : Option BitSet :=
  if amount < 128 then some ⟨(b.data <<< amount) % 2 ^ 128⟩ else none

/-- Embeds `impl ops::Shr<usize> for BitSet` (lib.rs:653-663), whose body is
`self.data >> amount`; the same overflow behavior applies to amounts of 128
or more. -/
def BitSet.shr (b : BitSet) (amount : Nat) : Option BitSet :=
  if amount < 128 then some ⟨b.data >>> amount⟩ else none

/-- Helper: the rendering always has exactly 128 characters. -/
theorem BitSet.length_as_string (b : BitSet) : b.as_string.length = 128 := by
  simp [BitSet.as_string, BitSet.capacity]

/-- Helper: the source's one-bit mask probe agrees with `Nat.testBit`. -/
theorem and_one_shiftLeft_ne_zero (x i : Nat) :
    (x &&& (1 <<< i) != 0) = x.testBit i := by
  rw [Nat.one_shiftLeft, Nat.and_two_pow]
  cases h : x.testBit i <;> simp [h, (Nat.two_pow_pos i).ne']

/-- Helper: within capacity, `test` reads bit `i` of the underlying word. -/
theorem BitSet.test_eq_testBit (b : BitSet) {i : Nat} (h : i < 128) :
    b.test i = b.data.testBit i := by
  simp [BitSet.test, BitSet.capacity, h, and_one_shiftLeft_ne_zero]

/-- Helper: the bits of the `to_u64` guard mask are exactly positions 64
through 127. -/
theorem testBit_high_mask (i : Nat) :
    ((0xFFFFFFFFFFFFFFFF : Nat) <<< 64).testBit i =
      (decide (64 ≤ i) && decide (i < 128)) := by
  have h : (0xFFFFFFFFFFFFFFFF : Nat) = 2 ^ 64 - 1 := by norm_num
  rw [h, Nat.testBit_shiftLeft, Nat.testBit_two_pow_sub_one]
  by_cases h64 : 64 ≤ i <;> by_cases h128 : i < 128 <;>
    simp [h64, h128] <;> omega

/-- Helper: the `to_u64` guard is zero exactly when bits 64 through 127 of
the word are all clear. -/
theorem and_high_mask_eq_zero_iff (x : Nat) :
    x &&& ((0xFFFFFFFFFFFFFFFF : Nat) <<< 64) = 0 ↔
      ∀ i, 64 ≤ i → i < 128 → x.testBit i = false := by
  constructor
  · intro h i h64 h128
    have h2 : (x &&& ((0xFFFFFFFFFFFFFFFF : Nat) <<< 64)).testBit i = false := by
      rw [h]; exact Nat.zero_testBit i
    rw [Nat.testBit_and, testBit_high_mask] at h2
    simpa [h64, h128] using h2
  · intro h
    apply Nat.eq_of_testBit_eq
    intro i
    rw [Nat.testBit_and, testBit_high_mask, Nat.zero_testBit]
    by_cases h64 : 64 ≤ i
    · by_cases h128 : i < 128
      · simp [h i h64 h128]
      · simp [h128]
    · simp [h64]

/-- Claim C1 as frozen is false at a concrete input: shifting the bit set
with value 1 left or right by 128 is an overflow (absent result), not the
all-false instance. -/
theorem shl128_counterexample :
    (BitSet.from_u128 1).shl 128 ≠ some BitSet.new ∧
    (BitSet.from_u128 1).shr 128 ≠ some BitSet.new := by decide

/-- Claim C1, amended: for every bit set and every shift amount of at least
128, shifting left or right by that amount is an arithmetic overflow — an
erroring operation, embedded as an absent result — rather than a valid
operation yielding the all-false instance. -/
theorem shift_ge_capacity_overflows (b : BitSet) (amount : Nat)
    (h : 128 ≤ amount) : b.shl amount = none ∧ b.shr amount = none := by
  have h2 : ¬ amount < 128 := by omega
  exact ⟨by simp [BitSet.shl, h2], by simp [BitSet.shr, h2]⟩

/-- Witness for the amended claim C1 at bit set 1 and amount 128. -/
theorem shift_ge_capacity_overflows_witness :
    128 ≤ 128 ∧
    ((BitSet.from_u128 1).shl 128 = none ∧ (BitSet.from_u128 1).shr 128 = none) :=
  ⟨by decide, shift_ge_capacity_overflows (BitSet.from_u128 1) 128 (by decide)⟩

/-- Claim C2: for every bit set and every position at or beyond 128, `get`,
`set` (with either boolean), and `flip` return an absent result and leave
the bit pattern unchanged. -/
theorem out_of_range_get_set_flip (b : BitSet) (p : Nat) (hp : 128 ≤ p)
    (v : Bool) :
    b.get p = none ∧
    (b.set p v).1 = none ∧ (b.set p v).2 = b ∧
    (b.flip p).1 = none ∧ (b.flip p).2 = b := by
  have h2 : ¬ p < 128 := by omega
  refine ⟨?_, ?_, ?_, ?_, ?_⟩ <;>
    simp [BitSet.get, BitSet.set, BitSet.flip, BitSet.capacity, h2]

/-- Witness for claim C2 at bit set 0xDEAD, position 130, value true. -/
theorem out_of_range_get_set_flip_witness :
    128 ≤ 130 ∧
    ((BitSet.from_u64 0xDEAD).get 130 = none ∧
     ((BitSet.from_u64 0xDEAD).set 130 true).1 = none ∧
     ((BitSet.from_u64 0xDEAD).set 130 true).2 = BitSet.from_u64 0xDEAD ∧
     ((BitSet.from_u64 0xDEAD).flip 130).1 = none ∧
     ((BitSet.from_u64 0xDEAD).flip 130).2 = BitSet.from_u64 0xDEAD) :=
  ⟨by decide, out_of_range_get_set_flip (BitSet.from_u64 0xDEAD) 130 (by decide) true⟩

/-- Claim C3: `to_u64` is present and equal to the low 64 bits of the bit
set exactly when bits 64 through 127 are all false, and absent otherwise. -/
theorem to_u64_iff_high_bits_false (b : BitSet) (_hb : b.data < 2 ^ 128) :
    (b.to_u64 = some (b.data % 2 ^ 64) ↔
      ∀ i, 64 ≤ i → i < 128 → b.test i = false) ∧
    ((¬ ∀ i, 64 ≤ i → i < 128 → b.test i = false) → b.to_u64 = none) := by
  constructor
  · constructor
    · intro h i h64 h128
      have hg : b.data &&& (0xFFFFFFFFFFFFFFFF <<< 64) = 0 := by
        by_contra hc
        unfold BitSet.to_u64 at h
        rw [if_neg hc] at h
        exact absurd h (by simp)
      rw [BitSet.test_eq_testBit b h128]
      exact (and_high_mask_eq_zero_iff b.data).mp hg i h64 h128
    · intro h
      have hg : b.data &&& (0xFFFFFFFFFFFFFFFF <<< 64) = 0 :=
        (and_high_mask_eq_zero_iff b.data).mpr (fun i h64 h128 => by
          rw [← BitSet.test_eq_testBit b h128]; exact h i h64 h128)
      unfold BitSet.to_u64
      rw [if_pos hg]
  · intro h
    have hg : ¬ b.data &&& (0xFFFFFFFFFFFFFFFF <<< 64) = 0 := by
      intro hg0
      exact h (fun i h64 h128 => by
        rw [BitSet.test_eq_testBit b h128]
        exact (and_high_mask_eq_zero_iff b.data).mp hg0 i h64 h128)
    unfold BitSet.to_u64
    rw [if_neg hg]

/-- Witness for claim C3 at the bit set with value 0xDEADBEEF. -/
theorem to_u64_iff_high_bits_false_witness :
    (BitSet.from_u128 0xDEADBEEF).data < 2 ^ 128 ∧
    (((BitSet.from_u128 0xDEADBEEF).to_u64 =
        some ((BitSet.from_u128 0xDEADBEEF).data % 2 ^ 64) ↔
      ∀ i, 64 ≤ i → i < 128 → (BitSet.from_u128 0xDEADBEEF).test i = false) ∧
     ((¬ ∀ i, 64 ≤ i → i < 128 →
          (BitSet.from_u128 0xDEADBEEF).test i = false) →
        (BitSet.from_u128 0xDEADBEEF).to_u64 = none)) :=
  ⟨by decide, to_u64_iff_high_bits_false (BitSet.from_u128 0xDEADBEEF) (by decide)⟩

/-- Claim C4: `to_u128` is total with no failure mode — always present with
the exact bit pattern — and round-trips `from_u128` on every 128-bit
value. -/
theorem to_u128_total_round_trip :
    (∀ b : BitSet, b.to_u128 = some b.data) ∧
    (∀ v : Nat, v < 2 ^ 128 → (BitSet.from_u128 v).to_u128 = some v) :=
  ⟨fun _ => rfl, fun _ _ => rfl⟩

/-- Witness for claim C4 at the value 0xDEADBEEF. -/
theorem to_u128_total_round_trip_witness :
    (0xDEADBEEF : Nat) < 2 ^ 128 ∧
    (BitSet.from_u128 0xDEADBEEF).to_u128 = some 0xDEADBEEF :=
  ⟨by decide, to_u128_total_round_trip.2 0xDEADBEEF (by decide)⟩

/-- Claim C5: `from_u64` reproduces the bits of its argument at positions 0
through 63, leaves positions 64 through 127 false, and `to_u64` round-trips
it. -/
theorem from_u64_spec (v : Nat) (hv : v < 2 ^ 64) :
    (∀ i, i < 64 → (BitSet.from_u64 v).test i = v.testBit i) ∧
    (∀ i, 64 ≤ i → (BitSet.from_u64 v).test i = false) ∧
    (BitSet.from_u64 v).to_u64 = some v := by
  have hvbit : ∀ i, 64 ≤ i → v.testBit i = false := fun i h64 =>
    Nat.testBit_lt_two_pow
      (lt_of_lt_of_le hv (Nat.pow_le_pow_right (by norm_num) h64))
  refine ⟨fun i hi => ?_, fun i h64 => ?_, ?_⟩
  · exact BitSet.test_eq_testBit (BitSet.from_u64 v) (by omega)
  · by_cases h128 : i < 128
    · rw [BitSet.test_eq_testBit (BitSet.from_u64 v) h128]
      exact hvbit i h64
    · simp [BitSet.test, BitSet.capacity, h128]
  · have hg : v &&& (0xFFFFFFFFFFFFFFFF <<< 64) = 0 :=
      (and_high_mask_eq_zero_iff v).mpr (fun i h64 _ => hvbit i h64)
    show (if v &&& (0xFFFFFFFFFFFFFFFF <<< 64) = 0 then some (v % 2 ^ 64)
      else none) = some v
    rw [if_pos hg, Nat.mod_eq_of_lt hv]

/-- Witness for claim C5 at the value 0xDEADBEEF. -/
theorem from_u64_spec_witness :
    (0xDEADBEEF : Nat) < 2 ^ 64 ∧
    ((∀ i, i < 64 →
        (BitSet.from_u64 0xDEADBEEF).test i = (0xDEADBEEF : Nat).testBit i) ∧
     (∀ i, 64 ≤ i → (BitSet.from_u64 0xDEADBEEF).test i = false) ∧
     (BitSet.from_u64 0xDEADBEEF).to_u64 = some 0xDEADBEEF) :=
  ⟨by decide, from_u64_spec 0xDEADBEEF (by decide)⟩

/-- Claim C6: `as_string` yields exactly 128 characters, each one of the
characters '1' or '0', and the character at textual position j renders bit
index 127 - j, '1' exactly when that bit is set. -/
theorem as_string_spec (b : BitSet) :
    b.as_string.length = 128 ∧
    (∀ c ∈ b.as_string, c = '1' ∨ c = '0') ∧
    (∀ j : Nat, ∀ hj : j < b.as_string.length,
      b.as_string[j] = if b.test (127 - j) then '1' else '0') := by
  refine ⟨BitSet.length_as_string b, ?_, ?_⟩
  · intro c hc
    simp [BitSet.as_string] at hc
    obtain ⟨i, -, rfl⟩ := hc
    by_cases h : b.test i <;> simp [h]
  · intro j hj
    have hj128 : j < 128 := by
      rw [BitSet.length_as_string b] at hj; exact hj
    have hidx : 128 - 1 - j = 127 - j := by omega
    simp only [BitSet.as_string, BitSet.capacity, List.getElem_map,
      List.getElem_reverse, List.length_reverse, List.length_range,
      List.getElem_range, hidx]

/-- Witness for claim C6 at the bit set with value 3: the rightmost
character renders bit 0, which is set. -/
theorem as_string_spec_witness :
    (BitSet.from_u64 3).as_string.length = 128 ∧
    (BitSet.from_u64 3).as_string[127]? = some '1' := by
  have h := as_string_spec (BitSet.from_u64 3)
  have hlt : (127 : Nat) < (BitSet.from_u64 3).as_string.length := by
    rw [h.1]; omega
  refine ⟨h.1, ?_⟩
  rw [List.getElem?_eq_getElem hlt, h.2.2 127 hlt]
  decide

/-- Claim C7: flipping a valid position twice in succession restores the
original bit pattern. -/
theorem flip_flip_id (b : BitSet) (p : Nat) (hp : p < 128) :
    ((b.flip p).2.flip p).2 = b := by
  cases b with
  | mk d => simp [BitSet.flip, BitSet.capacity, hp, Nat.xor_assoc]

/-- Witness for claim C7 at the bit set with value 0b1010, position 3. -/
theorem flip_flip_id_witness :
    3 < 128 ∧
    (((BitSet.from_u64 0b1010).flip 3).2.flip 3).2 = BitSet.from_u64 0b1010 :=
  ⟨by decide, flip_flip_id (BitSet.from_u64 0b1010) 3 (by decide)⟩

/-- Claim C8: AND and OR of a bit set with itself give the bit set back, and
XOR of a bit set with itself gives the all-false instance. -/
theorem self_and_or_xor (x : BitSet) :
    x.bitand x = x ∧ x.bitor x = x ∧ x.bitxor x = BitSet.new := by
  cases x with
  | mk d =>
    refine ⟨?_, ?_, ?_⟩ <;>
      simp [BitSet.bitand, BitSet.bitor, BitSet.bitxor, BitSet.new]

/-- Claim C9: for AND, OR and XOR, every owned/borrowed operand combination
and the corresponding assignment forms produce the same resulting bit
pattern as the canonical owned-owned operator, so the result depends only on
the operands' bit patterns. -/
theorem operand_modes_agree (x y : BitSet) :
    (x.bitand_val_ref y = x.bitand y ∧ x.bitand_ref_val y = x.bitand y ∧
     x.bitand_ref_ref y = x.bitand y ∧ x.bitand_assign y = x.bitand y ∧
     x.bitand_assign_ref y = x.bitand y) ∧
    (x.bitor_val_ref y = x.bitor y ∧ x.bitor_ref_val y = x.bitor y ∧
     x.bitor_ref_ref y = x.bitor y ∧ x.bitor_assign y = x.bitor y ∧
     x.bitor_assign_ref y = x.bitor y) ∧
    (x.bitxor_val_ref y = x.bitxor y ∧ x.bitxor_ref_val y = x.bitxor y ∧
     x.bitxor_ref_ref y = x.bitxor y ∧ x.bitxor_assign y = x.bitxor y ∧
     x.bitxor_assign_ref y = x.bitxor y) :=
  ⟨⟨rfl, rfl, rfl, rfl, rfl⟩, ⟨rfl, rfl, rfl, rfl, rfl⟩,
   ⟨rfl, rfl, rfl, rfl, rfl⟩⟩

/-- Claim C10: `test` is total — at every position at or beyond 128 it
returns `false` with no error signal, unlike the absent results of `get`,
`set` and `flip`. -/
theorem test_out_of_range_false (b : BitSet) (p : Nat) (hp : 128 ≤ p) :
    b.test p = false := by
  have h2 : ¬ p < 128 := by omega
  simp [BitSet.test, BitSet.capacity, h2]

/-- Witness for claim C10 at the all-low-bits set, position 128. -/
theorem test_out_of_range_false_witness :
    128 ≤ 128 ∧ (BitSet.from_u128 0xFFFF).test 128 = false :=
  ⟨by decide, test_out_of_range_false (BitSet.from_u128 0xFFFF) 128 (by decide)⟩

end Bitset
